import Mathlib

/-!
# Verification of the gitd Git Smart-HTTP gateway

A shallow embedding, in Lean 4, of the core of the `c4milo/gitd`
repository: the path sanitizer, the packet-line codec, the router and
the three request handlers, and the process bridge.  Strings are
modelled as their byte sequences, `List Char` (all the data the claims
touch is ASCII, so one `Char` stands for one byte and Go's `len` is
`List.length`).

The Go standard-library functions the core calls (`filepath.Clean`,
`filepath.ToSlash`, `filepath.Join`) are embedded for the platforms
this repository is built for.  The Makefile's `compile` target builds
for darwin, linux, solaris and freebsd only; on all of those
`filepath.Separator` is `'/'`, `filepath.ToSlash` is the identity and
`runtime.GOOS == "windows"` is false.
-/

namespace Gitd

/-! ## Data model and operations -/

/-- The path segment `..`, as a byte list. -/
def dd : List Char := ['.', '.']

/-- Splits a byte list at every `'/'`.  Mirrors how `filepath.Clean`
walks a slash-separated path element by element on the Unix-like
platforms this repository targets: the chunks between separators are
the path elements (empty chunks stand for repeated or leading
separators, which `Clean` skips). -/
def splitSegs : List Char → List (List Char)
  | [] => [[]]
  | c :: cs =>
    if c = '/' then [] :: splitSegs cs
    else
      match splitSegs cs with
      | [] => [[c]]
      | s :: ss => (c :: s) :: ss

/-- Joins path elements with `'/'`, the inverse of `splitSegs` on
slash-free elements. -/
def joinSegs : List (List Char) → List Char
  | [] => []
  | [s] => s
  | s :: ss => s ++ '/' :: joinSegs ss

/-- One step of `filepath.Clean`'s element loop, at the path-element
level.  `acc` is the output buffer viewed as a stack of already-emitted
elements (most recent first).  An empty or `.` element is skipped; a
`..` element backtracks over the last emitted element if there is a
non-`..` one, is appended when the path is relative and nothing can be
backtracked over, and is dropped when the path is rooted; every other
element is emitted. -/
def cleanStep (rooted : Bool) (acc : List (List Char)) (seg : List Char) :
    List (List Char) :=
  if seg = [] ∨ seg = ['.'] then acc
  else if seg = dd then
    match acc with
    | [] => if rooted then [] else [dd]
    | top :: rest => if top = dd then dd :: (top :: rest) else rest
  else seg :: acc

/-- `filepath.Clean` on the Unix-like platforms this repository is
built for: lexical normalization of a slash-separated path.  The empty
path becomes `.`; otherwise the path's elements are run through
`cleanStep` and rejoined, a rooted path keeps its leading `/`, and a
relative path whose elements all cancel becomes `.`. -/
def clean (path : List Char) : List Char :=
  match path with
  | [] => ['.']
  | c :: _ =>
    let rooted : Bool := c = '/'
    let out := (List.foldl (cleanStep rooted) [] (splitSegs path)).reverse
    if rooted then '/' :: joinSegs out
    else if out = [] then ['.'] else joinSegs out

/-- `filepath.ToSlash`: replaces `filepath.Separator` by `'/'`.  On the
platforms this repository is built for the separator already is `'/'`,
so the function is the identity (the Go implementation returns its
argument unchanged when `Separator == '/'`). -/
def toSlash (path : List Char) : List Char := path

/-- The `for strings.HasPrefix(name, "../") { name = name[3:] }` loop
of `sanitize`: repeatedly drops a leading `../`. -/
def stripDotDot : List Char → List Char
  | '.' :: '.' :: '/' :: rest => stripDotDot rest
  | s => s

/-- Whether `runtime.GOOS == "windows"` holds for this program.  The
Makefile's `compile` target builds for darwin, linux, solaris and
freebsd only, so the comparison is false in every build of this
repository. -/
def goosIsWindows : Bool := false

/-- `sanitize` from the source: optionally strips a two-character
volume label (only when `runtime.GOOS == "windows"`), then applies
`filepath.Clean`, `filepath.ToSlash`, and the loop removing every
leading `../`. -/
def sanitize (name : List Char) : List Char :=
  let name :=
    if 1 < name.length ∧ name.get? 1 = some ':' ∧ goosIsWindows = true
    then name.drop 2 else name
  stripDotDot (toSlash (clean name))

/-- `filepath.Join` of two elements, as the handlers call it: the
non-empty elements joined with `/` and the result cleaned; all-empty
input gives the empty string. -/
def filepathJoin (a b : List Char) : List Char :=
  if a = [] ∧ b = [] then []
  else if a = [] then clean b
  else if b = [] then clean a
  else clean (a ++ '/' :: b)

/-- One lowercase hexadecimal digit, as `strconv.FormatInt` renders
it. -/
def hexDigit (n : Nat) : Char :=
  if n < 10 then Char.ofNat ('0'.toNat + n) else Char.ofNat ('a'.toNat + (n - 10))

/-- Digit loop of `strconv.FormatInt(n, 16)` for a non-negative `n`:
emits the base-16 digits most significant first.  `fuel` only bounds
the recursion; any `fuel ≥ n` yields the digits of `n` (the loop runs
once per digit). -/
def toHexAux : Nat → Nat → List Char → List Char
  | 0, _, acc => acc
  | fuel + 1, n, acc =>
    if n = 0 then acc else toHexAux fuel (n / 16) (hexDigit (n % 16) :: acc)

/-- `strconv.FormatInt(n, 16)` for `n ≥ 0`: lowercase hex digits of
`n`, no leading zeros, and `"0"` for zero. -/
def toHex (n : Nat) : List Char :=
  if n = 0 then ['0'] else toHexAux n n []

/-- `packetWrite` from the source: renders `len(str) + 4` in lowercase
hex, left-pads the digit string with `'0'` to a multiple of four digits
whenever its length is not already one, and prepends it to the
payload. -/
def packetWrite (str : List Char) : List Char :=
  let s := toHex (str.length + 4)
  let m := s.length % 4
  let s := if m ≠ 0 then List.replicate (4 - m) '0' ++ s else s
  s ++ str

/-- `packetFlush` from the source: the literal flush frame `0000`. -/
def packetFlush : List Char := "0000".data

/-- Value of one hexadecimal digit character, upper or lower case. -/
def fromHexDigit (c : Char) : Option Nat :=
  if '0' ≤ c ∧ c ≤ '9' then some (c.toNat - '0'.toNat)
  else if 'a' ≤ c ∧ c ≤ 'f' then some (c.toNat - 'a'.toNat + 10)
  else if 'A' ≤ c ∧ c ≤ 'F' then some (c.toNat - 'A'.toNat + 10)
  else none

/-- Left-to-right hexadecimal evaluation of a digit string, starting
from the accumulated value `a`. -/
def parseHexFrom (a : Nat) : List Char → Option Nat
  | [] => some a
  | c :: cs =>
    match fromHexDigit c with
    | none => none
    | some d => parseHexFrom (a * 16 + d) cs

/-- Hexadecimal value of a digit string. -/
def parseHex (cs : List Char) : Option Nat := parseHexFrom 0 cs

/-- `decode-frame` as the specification describes it: read the first
four characters of the frame as a 4-hex-digit total frame length `n`,
and return the `n - 4` bytes that follow the header. -/
def decodeFrame (frame : List Char) : Option (List Char) :=
  if frame.length < 4 then none
  else
    match parseHex (frame.take 4) with
    | none => none
    | some n => some ((frame.drop 4).take (n - 4))

/-- The parts of an `http.Request` the handlers consult.
`queryService` is `req.URL.Query().Get("service")`, which yields the
empty string when the parameter is absent; `contentEncoding` is the
`Content-Encoding` request header, likewise empty when absent. -/
structure Request where
  method : List Char
  path : List Char
  queryService : List Char
  contentEncoding : List Char
  body : List Char
deriving DecidableEq

/-- Behaviour of one spawned subprocess: whether each of
`StdinPipe`, `StdoutPipe` and `Start` fails, and the bytes its
standard output yields. -/
structure ProcSpec where
  stdinPipeErr : Bool
  stdoutPipeErr : Bool
  startErr : Bool
  output : List Char
deriving DecidableEq

/-- One call a handler makes against the `http.ResponseWriter`, in
order: `Header().Add`, `WriteHeader`, or `Write`. -/
inductive RespEvent where
  | header (name value : List Char)
  | status (code : Nat)
  | write (data : List Char)
deriving DecidableEq

/-- Effects of `runCommand`: the working directory given to the
subprocess, the bytes copied into its standard input, the response
events written, and how many failures were handed to `log.Error`. -/
structure CmdResult where
  dir : List Char
  stdinFed : List Char
  resp : List RespEvent
  errorsLogged : Nat
deriving DecidableEq

/-- `runCommand` from the source: sets the subprocess working
directory to `sanitize cwd`, logs (and only logs) each pipe or spawn
failure, copies the whole request body into the subprocess and the
whole subprocess output to the response writer, and waits.  It never
touches headers or status: its only response events are body writes. -/
def runCommand (cwd command : List Char) (args : List (List Char))
    (proc : ProcSpec) (body : List Char) : CmdResult :=
  { dir := sanitize cwd
    stdinFed := body
    resp := [RespEvent.write proc.output]
    errorsLogged :=
      (if proc.stdinPipeErr then 1 else 0) +
      (if proc.stdoutPipeErr then 1 else 0) +
      (if proc.startErr then 1 else 0) }

/-- `UploadPack` from the source: rejects a non-POST method with 405,
otherwise adds the result content type, commits 200 and bridges to
`git-upload-pack --stateless-rpc .` in the joined repository
directory. -/
def UploadPack (reposPath : List Char) (req : Request) (repoPath : List Char)
    (proc : ProcSpec) : List RespEvent :=
  if req.method ≠ "POST".data then
    [RespEvent.status 405, RespEvent.write "Method Not Allowed".data]
  else
    RespEvent.header "Content-Type".data "application/x-git-upload-pack-result".data ::
    RespEvent.status 200 ::
    (runCommand (filepathJoin reposPath repoPath) "git-upload-pack".data
      ["--stateless-rpc".data, ".".data] proc req.body).resp

/-- `ReceivePack` from the source: symmetric to `UploadPack`, against
`git-receive-pack`. -/
def ReceivePack (reposPath : List Char) (req : Request) (repoPath : List Char)
    (proc : ProcSpec) : List RespEvent :=
  if req.method ≠ "POST".data then
    [RespEvent.status 405, RespEvent.write "Method Not Allowed".data]
  else
    RespEvent.header "Content-Type".data "application/x-git-receive-pack-result".data ::
    RespEvent.status 200 ::
    (runCommand (filepathJoin reposPath repoPath) "git-receive-pack".data
      ["--stateless-rpc".data, ".".data] proc req.body).resp

/-- `InfoRefs` from the source: rejects a non-GET method with 405,
rejects a `service` query value other than the two operation names
with 400, and otherwise adds the advertisement content type, commits
200, writes the `# service=<name>\n` packet frame and the flush frame,
and bridges to `<service> --stateless-rpc --advertise-refs .`. -/
def InfoRefs (reposPath : List Char) (req : Request) (repoPath : List Char)
    (proc : ProcSpec) : List RespEvent :=
  if req.method ≠ "GET".data then
    [RespEvent.status 405, RespEvent.write "Method Not Allowed".data]
  else
    let cmd := req.queryService
    if cmd ≠ "git-receive-pack".data ∧ cmd ≠ "git-upload-pack".data then
      [RespEvent.status 400, RespEvent.write "Bad Request".data]
    else
      RespEvent.header "Content-Type".data
        ("application/x-".data ++ cmd ++ "-advertisement".data) ::
      RespEvent.status 200 ::
      RespEvent.write (packetWrite ("# service=".data ++ cmd ++ ['\n'])) ::
      RespEvent.write packetFlush ::
      (runCommand (filepathJoin reposPath repoPath) cmd
        ["--stateless-rpc".data, "--advertise-refs".data, ".".data] proc req.body).resp

/-- The three fixed route suffixes. -/
def uploadSuffix : List Char := "/git-upload-pack".data

def receiveSuffix : List Char := "/git-receive-pack".data

def infoRefsSuffix : List Char := "/info/refs".data

/-- Whether `p` ends with `s`.  The route regular expressions
`(.*?)<literal>$` match a path exactly when the literal part is a
suffix of it. -/
def hasSuffix (s p : List Char) : Bool := p.drop (p.length - s.length) == s

/-- Splits a byte list at every newline. -/
def splitLines : List Char → List (List Char)
  | [] => [[]]
  | c :: cs =>
    if c = '\n' then [] :: splitLines cs
    else
      match splitLines cs with
      | [] => [[c]]
      | s :: ss => (c :: s) :: ss

/-- The capture group `m[1]` of a matching route pattern: the part of
the path before the suffix, truncated to what follows its last
newline, because the leftmost match of `(.*?)<literal>$` starts right
after the last newline (`.` does not match a newline in Go regular
expressions). -/
def captured (suffix path : List Char) : List Char :=
  (splitLines (path.take (path.length - suffix.length))).getLastD []

/-- The three operations the router dispatches to. -/
inductive GitOp where
  | upload
  | receive
  | infoRefs
deriving DecidableEq

/-- Route matching of `GitDHTTPHandler`: the handler iterates over the
three compiled patterns and dispatches to the first whose literal
suffix matches, passing the captured repository path.  The map
iteration order is unspecified in Go, but the three suffixes are
pairwise exclusive (`routePatterns_exclusive`), so a fixed order is an
equivalent model. -/
def routeOf (path : List Char) : Option (GitOp × List Char) :=
  if hasSuffix uploadSuffix path then some (GitOp.upload, captured uploadSuffix path)
  else if hasSuffix receiveSuffix path then some (GitOp.receive, captured receiveSuffix path)
  else if hasSuffix infoRefsSuffix path then some (GitOp.infoRefs, captured infoRefsSuffix path)
  else none

/-- `GitDHTTPHandler` from the source: dispatches on the matched route
pattern, or answers 400 `Bad Request` when no pattern matches. -/
def GitDHTTPHandler (reposPath : List Char) (req : Request) (proc : ProcSpec) :
    List RespEvent :=
  match routeOf req.path with
  | some (GitOp.upload, rp) => UploadPack reposPath req rp proc
  | some (GitOp.receive, rp) => ReceivePack reposPath req rp proc
  | some (GitOp.infoRefs, rp) => InfoRefs reposPath req rp proc
  | none => [RespEvent.status 400, RespEvent.write "Bad Request".data]

/-- The HTTP verb each operation requires. -/
def requiredMethod : GitOp → List Char
  | GitOp.upload => "POST".data
  | GitOp.receive => "POST".data
  | GitOp.infoRefs => "GET".data

/-- The `service` query values `InfoRefs` accepts. -/
def validService (svc : List Char) : Prop :=
  svc = "git-receive-pack".data ∨ svc = "git-upload-pack".data

instance (svc : List Char) : Decidable (validService svc) := by
  unfold validService; infer_instance

/-- How many of the three route patterns match a path. -/
def countMatches (path : List Char) : Nat :=
  (if hasSuffix uploadSuffix path then 1 else 0) +
  (if hasSuffix receiveSuffix path then 1 else 0) +
  (if hasSuffix infoRefsSuffix path then 1 else 0)

/-- Modelled from the spec: the outcome of constructing the
decompressing stream of the Content Decoder — whether construction
fails, and the decompressed byte stream when it succeeds.  The decoder
itself (`gitd.Handler`'s body-decoding step) is referenced by
`src/gitd_test.go` and the `cmd` main in `src/unnamed/part_003` but its
source file is not under `src/`. -/
structure GzipAttempt where
  fails : Bool
  decompressed : List Char
deriving DecidableEq

/-- Modelled from the spec: a `Content-Encoding` value that signals
the recognized compression scheme — `gzip` "or an equivalent alias". -/
def isGzipEncoding (ce : List Char) : Prop :=
  ce = "gzip".data ∨ ce = "x-gzip".data

instance (ce : List Char) : Decidable (isGzipEncoding ce) := by
  unfold isGzipEncoding; infer_instance

/-- Modelled from the spec: the Content Decoder.  Inspects the
content-encoding indicator; when it signals the recognized compression
scheme, the body is replaced by the decompressing stream; on
construction failure the original raw body stream is returned
(non-fatal fallback); any other encoding passes the raw body
through. -/
def decodeBody (contentEncoding : List Char) (gz : GzipAttempt)
    (raw : List Char) : List Char :=
  if isGzipEncoding contentEncoding then
    if gz.fails then raw else gz.decompressed
  else raw

/-- A sample upload request used by witnesses. -/
def sampleUploadReq : Request :=
  { method := "POST".data, path := "/test.git/git-upload-pack".data,
    queryService := [], contentEncoding := [], body := "pkt".data }

/-- A sample ref-discovery request used by witnesses. -/
def sampleInfoRefsReq : Request :=
  { method := "GET".data, path := "/test.git/info/refs".data,
    queryService := "git-upload-pack".data, contentEncoding := [], body := [] }

/-- A well-behaved subprocess used by witnesses. -/
def sampleProcOk : ProcSpec :=
  { stdinPipeErr := false, stdoutPipeErr := false, startErr := false,
    output := "out".data }

/-- A subprocess whose pipes and spawn all fail, used by witnesses. -/
def sampleProcBad : ProcSpec :=
  { stdinPipeErr := true, stdoutPipeErr := true, startErr := true, output := [] }

/-- A GET request aimed at the upload path, used by the C5 witness. -/
def sampleWrongMethodReq : Request :=
  { method := "GET".data, path := "/test.git/git-upload-pack".data,
    queryService := [], contentEncoding := [], body := [] }

/-- A path element that `cleanStep` emits verbatim: non-empty, not
`.`, not `..`, and containing no separator. -/
def NormalSeg (s : List Char) : Prop :=
  s ≠ [] ∧ s ≠ ['.'] ∧ s ≠ dd ∧ '/' ∉ s

/-- A sample decompressor attempt used by the C6 witness. -/
def sampleGz : GzipAttempt := { fails := false, decompressed := "plain".data }

/-! ## Properties -/

example : clean "a/../../etc/passwd".data = "../etc/passwd".data := by decide

example : sanitize "a/../../etc/passwd".data = "etc/passwd".data := by decide

example : sanitize "../..".data = "..".data := by decide

example : sanitize "..".data = "..".data := by decide

example : clean "/a//b/./c/..".data = "/a/b".data := by decide

example : clean "".data = ".".data := by decide

example : clean "/../x".data = "/x".data := by decide

example : sanitize "C:/secret".data = "C:/secret".data := by decide

example : packetWrite "# service=git-upload-pack\n".data
    = "001e# service=git-upload-pack\n".data := by decide

example : packetWrite [] = "0004".data := by decide

example : decodeFrame (packetWrite "# service=git-upload-pack\n".data)
    = some "# service=git-upload-pack\n".data := by decide

theorem toHexAux_zero (f : Nat) (acc : List Char) : toHexAux f 0 acc = acc := by
  cases f <;> rfl

theorem toHexAux_succ (f n : Nat) (acc : List Char) :
    toHexAux (f + 1) n acc
      = if n = 0 then acc else toHexAux f (n / 16) (hexDigit (n % 16) :: acc) := rfl

theorem parseHexFrom_cons (a : Nat) (c : Char) (cs : List Char) :
    parseHexFrom a (c :: cs)
      = match fromHexDigit c with
        | none => none
        | some d => parseHexFrom (a * 16 + d) cs := rfl

theorem fromHexDigit_hexDigit : ∀ r, r < 16 → fromHexDigit (hexDigit r) = some r := by
  decide

theorem parse_toHexAux (f : Nat) :
    ∀ n acc, n ≤ f → 0 < n →
      parseHexFrom 0 (toHexAux f n acc) = parseHexFrom n acc := by
  induction f with
  | zero => intro n acc hf hn; omega
  | succ f ih =>
    intro n acc hf hn
    have hmod : n % 16 < 16 := Nat.mod_lt _ (by norm_num)
    rw [toHexAux_succ, if_neg (by omega)]
    by_cases hq : n / 16 = 0
    · have hlt : n < 16 := by omega
      rw [hq, toHexAux_zero, parseHexFrom_cons, fromHexDigit_hexDigit _ hmod]
      show parseHexFrom (0 * 16 + n % 16) acc = parseHexFrom n acc
      rw [show 0 * 16 + n % 16 = n from by omega]
    · have hle : n / 16 ≤ f := by omega
      rw [ih (n / 16) _ hle (by omega), parseHexFrom_cons,
        fromHexDigit_hexDigit _ hmod]
      show parseHexFrom (n / 16 * 16 + n % 16) acc = parseHexFrom n acc
      rw [show n / 16 * 16 + n % 16 = n from by omega]

theorem parse_zeros (k : Nat) (cs : List Char) :
    parseHexFrom 0 (List.replicate k '0' ++ cs) = parseHexFrom 0 cs := by
  induction k with
  | zero => rfl
  | succ k ih =>
    rw [List.replicate_succ, List.cons_append, parseHexFrom_cons,
      show fromHexDigit '0' = some 0 from rfl]
    show parseHexFrom (0 * 16 + 0) _ = _
    rw [show 0 * 16 + 0 = 0 from rfl]
    exact ih

theorem parse_toHex (n : Nat) (hn : 0 < n) : parseHex (toHex n) = some n := by
  unfold toHex parseHex
  rw [if_neg (by omega)]
  rw [parse_toHexAux n n [] le_rfl hn]
  rfl

theorem toHexAux_length_le (f : Nat) :
    ∀ k n acc, n < 16 ^ k → (toHexAux f n acc).length ≤ k + acc.length := by
  induction f with
  | zero => intro k n acc _; exact Nat.le_add_left _ _
  | succ f ih =>
    intro k n acc hk
    by_cases hn : n = 0
    · rw [hn, toHexAux_zero]; exact Nat.le_add_left _ _
    · cases k with
      | zero =>
        exfalso
        have : (16 : Nat) ^ 0 = 1 := pow_zero 16
        omega
      | succ k =>
        rw [toHexAux_succ, if_neg hn]
        have hq : n / 16 < 16 ^ k := by
          rw [Nat.div_lt_iff_lt_mul (by norm_num)]
          calc n < 16 ^ (k + 1) := hk
            _ = 16 ^ k * 16 := by rw [pow_succ]
        have hrec := ih k (n / 16) (hexDigit (n % 16) :: acc) hq
        rw [List.length_cons] at hrec
        omega

theorem toHexAux_length_ge (f : Nat) :
    ∀ n acc, acc.length ≤ (toHexAux f n acc).length := by
  induction f with
  | zero => intro n acc; exact le_rfl
  | succ f ih =>
    intro n acc
    by_cases hn : n = 0
    · rw [hn, toHexAux_zero]
    · rw [toHexAux_succ, if_neg hn]
      have hrec := ih (n / 16) (hexDigit (n % 16) :: acc)
      rw [List.length_cons] at hrec
      omega

theorem toHex_length_le (n : Nat) (h : n < 65536) : (toHex n).length ≤ 4 := by
  unfold toHex
  by_cases hn : n = 0
  · simp [hn]
  · rw [if_neg hn]
    have h16 : n < 16 ^ 4 := by norm_num; omega
    have := toHexAux_length_le n 4 n [] h16
    simpa using this

theorem toHex_length_pos (n : Nat) (hn : 0 < n) : 1 ≤ (toHex n).length := by
  unfold toHex
  rw [if_neg (by omega)]
  obtain ⟨f, rfl⟩ : ∃ f, n = f + 1 := ⟨n - 1, by omega⟩
  rw [toHexAux_succ, if_neg (by omega)]
  have := toHexAux_length_ge f ((f + 1) / 16) [hexDigit ((f + 1) % 16)]
  simp only [List.length_cons, List.length_nil] at this
  omega

theorem packetWrite_header (s : List Char) (h : s.length + 4 < 65536) :
    ∃ hd, packetWrite s = hd ++ s ∧ hd.length = 4
      ∧ parseHex hd = some (s.length + 4) := by
  have hpos : 0 < s.length + 4 := by omega
  have hle := toHex_length_le (s.length + 4) h
  have hge := toHex_length_pos (s.length + 4) hpos
  by_cases h4 : (toHex (s.length + 4)).length % 4 = 0
  · refine ⟨toHex (s.length + 4), ?_, by omega, parse_toHex _ hpos⟩
    simp only [packetWrite]
    rw [if_neg (not_not_intro h4)]
  · refine ⟨List.replicate (4 - (toHex (s.length + 4)).length % 4) '0'
      ++ toHex (s.length + 4), ?_, ?_, ?_⟩
    · simp only [packetWrite]
      rw [if_pos h4, List.append_assoc]
    · rw [List.length_append, List.length_replicate]
      omega
    · unfold parseHex
      rw [parse_zeros]
      exact parse_toHex _ hpos

/-- C2 (amended): for every payload short enough that its header fits
in four hexadecimal digits — `len(s) + 4 < 16^4`, that is `len(s) ≤
65531`, which covers every frame the program emits — reading the first
four characters of `packetWrite s` as the total frame length and
taking the `length - 4` bytes after them returns exactly `s`.  (No
condition on NUL bytes is needed.)  For longer payloads the header
spills to eight digits and the 4-digit decode fails
(`packet_decode_cex`). -/
theorem packet_decode_encode (s : List Char) (h : s.length + 4 < 65536) :
    decodeFrame (packetWrite s) = some s := by
  obtain ⟨hd, hpw, hlen, hparse⟩ := packetWrite_header s h
  rw [hpw]
  unfold decodeFrame
  rw [if_neg (by rw [List.length_append]; omega)]
  have htake : (hd ++ s).take 4 = hd := by
    rw [← hlen]
    exact List.take_left hd s
  rw [htake, hparse]
  have hdrop : (hd ++ s).drop 4 = s := by
    rw [← hlen]
    exact List.drop_left hd s
  rw [hdrop]
  show some (List.take (s.length + 4 - 4) s) = some s
  rw [show s.length + 4 - 4 = s.length from by omega, List.take_length]

/-- C2, witnessed at the service-advertisement payload the program
actually frames. -/
theorem packet_decode_encode_witness :
    decodeFrame (packetWrite "# service=git-upload-pack\n".data)
      = some "# service=git-upload-pack\n".data :=
  packet_decode_encode "# service=git-upload-pack\n".data (by decide)

/-- C2 (counterexample): a 65532-byte NUL-free payload makes
`len + 4 = 16^4`, so `packetWrite` emits the eight-digit header
`00010000`; reading the first four characters `0001` as the total
length returns the empty string rather than the payload, so the
claimed roundtrip over all NUL-free strings fails. -/
theorem packet_decode_cex :
    decodeFrame (packetWrite (List.replicate 65532 'a'))
      ≠ some (List.replicate 65532 'a') := by
  have hpw : packetWrite (List.replicate 65532 'a')
      = "00010000".data ++ List.replicate 65532 'a' := by
    simp only [packetWrite, List.length_replicate]
    rw [show toHex (65532 + 4) = "10000".data from by decide]
    rw [if_pos (by decide)]
    rfl
  rw [hpw]
  unfold decodeFrame
  rw [if_neg (by rw [List.length_append, List.length_replicate]; omega)]
  rw [List.take_append_of_le_length (by decide)]
  rw [show parseHex (("00010000".data).take 4) = some 1 from by decide]
  intro heq
  have hbytes := Option.some.inj heq
  have hL := congrArg List.length hbytes
  rw [List.take_zero, List.length_replicate] at hL
  exact absurd hL (by decide)

theorem stripDotDot_take3 (s : List Char) :
    ((stripDotDot s).take 3 == ['.', '.', '/']) = false := by
  induction s using stripDotDot.induct with
  | case1 rest ih => simpa [stripDotDot] using ih
  | case2 s h =>
    have hself : stripDotDot s = s := by
      rw [stripDotDot.eq_def]
      split
      · exact absurd rfl (h _)
      · rfl
    rw [hself, beq_eq_false_iff_ne]
    intro heq
    apply h (s.drop 3)
    conv_lhs => rw [← List.take_append_drop 3 s]
    rw [heq]
    rfl

theorem stripDotDot_of_take3_ne (s : List Char)
    (h : (s.take 3 == ['.', '.', '/']) = false) : stripDotDot s = s := by
  rw [stripDotDot.eq_def]
  split
  · rename_i rest
    simp at h
  · rfl

theorem stripDotDot_idem (s : List Char) :
    stripDotDot (stripDotDot s) = stripDotDot s :=
  stripDotDot_of_take3_ne _ (stripDotDot_take3 s)

/-- In every build of this repository the drive-label branch of
`sanitize` is dead, so `sanitize` is normalization followed by
traversal-stripping. -/
theorem sanitize_eq (name : List Char) :
    sanitize name = stripDotDot (clean name) := by
  unfold sanitize toSlash
  rw [if_neg]
  simp [goosIsWindows]

/-- C1 (counterexample): for the input `../..`, which still has a
leading `../` token after lexical normalization, `sanitize` returns
the bare upward-traversal token `..` — the result does begin with an
upward traversal token, and joining `..` to a repositories root
resolves to the root's parent. -/
theorem sanitize_bare_updir_cex :
    sanitize "../..".data = "..".data
    ∧ (sanitize "../..".data).take 2 = ['.', '.'] := by
  constructor
  · decide
  · decide

/-- C1 (amended): for every input string, the result of `sanitize`
never begins with the token `../` — in particular any path whose
normalization has leading `../` tokens comes back with all of them
removed — although the result can be the bare token `..` itself
(see the counterexample), which joined to a fixed root escapes it. -/
theorem sanitize_no_leading_updir (name : List Char) :
    ((sanitize name).take 3 == ['.', '.', '/']) = false := by
  rw [sanitize_eq]
  exact stripDotDot_take3 _

/-- C7: `sanitize` normalizes before it strips: `a/../../etc/passwd`
first collapses under `filepath.Clean` to `../etc/passwd`, whose
leading `../` is then removed, giving `etc/passwd`; stripping before
normalizing would instead leave `../etc/passwd`. -/
theorem sanitize_normalize_then_strip :
    clean "a/../../etc/passwd".data = "../etc/passwd".data
    ∧ sanitize "a/../../etc/passwd".data
        = stripDotDot (clean "a/../../etc/passwd".data)
    ∧ sanitize "a/../../etc/passwd".data = "etc/passwd".data
    ∧ clean (stripDotDot "a/../../etc/passwd".data) = "../etc/passwd".data := by
  refine ⟨by decide, sanitize_eq _, by decide, by decide⟩

/-- C8 (counterexample): this repository is only ever built for
non-Windows platforms (`runtime.GOOS == "windows"` is false), so a
path beginning with a two-character drive-letter prefix keeps that
prefix: `sanitize` does not remove it. -/
theorem sanitize_drive_kept_cex :
    sanitize "C:/secret".data = "C:/secret".data
    ∧ (sanitize "C:/secret".data).take 2 = ['C', ':'] := by
  constructor
  · decide
  · decide

/-- C8 (amended): the drive-letter strip in `sanitize` is guarded by
`runtime.GOOS == "windows"`, which no build of this repository
satisfies (the Makefile compiles for darwin, linux, solaris and
freebsd); for a name with `':'` in second position the whole name,
prefix included, is what goes through normalization and
traversal-stripping. -/
theorem sanitize_keeps_drive (name : List Char) (h : name.get? 1 = some ':') :
    sanitize name = stripDotDot (toSlash (clean name)) :=
  sanitize_eq name

/-- C8 amended, witnessed at `C:/secret`. -/
theorem sanitize_keeps_drive_witness :
    "C:/secret".data.get? 1 = some ':'
    ∧ sanitize "C:/secret".data
        = stripDotDot (toSlash (clean "C:/secret".data)) :=
  ⟨by decide, sanitize_keeps_drive "C:/secret".data (by decide)⟩

theorem upload_receive_exclusive (p : List Char) :
    ¬(hasSuffix uploadSuffix p = true ∧ hasSuffix receiveSuffix p = true) := by
  rintro ⟨h1, h2⟩
  simp only [hasSuffix, uploadSuffix, receiveSuffix] at h1 h2
  rw [beq_iff_eq] at h1 h2
  have hl1 := congrArg List.length h1
  have hl2 := congrArg List.length h2
  rw [List.length_drop] at hl1 hl2
  have e1 : ("/git-upload-pack".data).length = 16 := by decide
  have e2 : ("/git-receive-pack".data).length = 17 := by decide
  rw [e1] at hl1
  rw [e2] at hl2
  have key : p.drop (p.length - "/git-upload-pack".data.length)
      = List.drop 1 (p.drop (p.length - "/git-receive-pack".data.length)) := by
    rw [List.drop_drop, e1, e2]
    congr 1
    omega
  rw [h1, h2] at key
  exact absurd key (by decide)

theorem upload_infoRefs_exclusive (p : List Char) :
    ¬(hasSuffix uploadSuffix p = true ∧ hasSuffix infoRefsSuffix p = true) := by
  rintro ⟨h1, h2⟩
  simp only [hasSuffix, uploadSuffix, infoRefsSuffix] at h1 h2
  rw [beq_iff_eq] at h1 h2
  have hl1 := congrArg List.length h1
  have hl2 := congrArg List.length h2
  rw [List.length_drop] at hl1 hl2
  have e1 : ("/git-upload-pack".data).length = 16 := by decide
  have e2 : ("/info/refs".data).length = 10 := by decide
  rw [e1] at hl1
  rw [e2] at hl2
  have key : p.drop (p.length - "/info/refs".data.length)
      = List.drop 6 (p.drop (p.length - "/git-upload-pack".data.length)) := by
    rw [List.drop_drop, e1, e2]
    congr 1
    omega
  rw [h1, h2] at key
  exact absurd key (by decide)

theorem receive_infoRefs_exclusive (p : List Char) :
    ¬(hasSuffix receiveSuffix p = true ∧ hasSuffix infoRefsSuffix p = true) := by
  rintro ⟨h1, h2⟩
  simp only [hasSuffix, receiveSuffix, infoRefsSuffix] at h1 h2
  rw [beq_iff_eq] at h1 h2
  have hl1 := congrArg List.length h1
  have hl2 := congrArg List.length h2
  rw [List.length_drop] at hl1 hl2
  have e1 : ("/git-receive-pack".data).length = 17 := by decide
  have e2 : ("/info/refs".data).length = 10 := by decide
  rw [e1] at hl1
  rw [e2] at hl2
  have key : p.drop (p.length - "/info/refs".data.length)
      = List.drop 7 (p.drop (p.length - "/git-receive-pack".data.length)) := by
    rw [List.drop_drop, e1, e2]
    congr 1
    omega
  rw [h1, h2] at key
  exact absurd key (by decide)

/-- C9: at most one of the three route patterns matches any request
path, so the dispatched operation is determined by the path alone, in
whatever order the patterns are tried. -/
theorem routePatterns_at_most_one (path : List Char) : countMatches path ≤ 1 := by
  have h1 := upload_receive_exclusive path
  have h2 := upload_infoRefs_exclusive path
  have h3 := receive_infoRefs_exclusive path
  unfold countMatches
  cases hu : hasSuffix uploadSuffix path <;>
    cases hr : hasSuffix receiveSuffix path <;>
      cases hi : hasSuffix infoRefsSuffix path <;>
        simp_all

theorem dispatch_upload (reposPath : List Char) (req : Request) (rp : List Char)
    (proc : ProcSpec) (h : routeOf req.path = some (GitOp.upload, rp)) :
    GitDHTTPHandler reposPath req proc = UploadPack reposPath req rp proc := by
  unfold GitDHTTPHandler
  rw [h]

theorem dispatch_receive (reposPath : List Char) (req : Request) (rp : List Char)
    (proc : ProcSpec) (h : routeOf req.path = some (GitOp.receive, rp)) :
    GitDHTTPHandler reposPath req proc = ReceivePack reposPath req rp proc := by
  unfold GitDHTTPHandler
  rw [h]

theorem dispatch_infoRefs (reposPath : List Char) (req : Request) (rp : List Char)
    (proc : ProcSpec) (h : routeOf req.path = some (GitOp.infoRefs, rp)) :
    GitDHTTPHandler reposPath req proc = InfoRefs reposPath req rp proc := by
  unfold GitDHTTPHandler
  rw [h]

/-- C5: a request whose path matches a route pattern but whose method
is not the operation's required verb is answered with exactly a 405
status and the plain-text body `Method Not Allowed` — no 200, and no
header beyond the status, is ever written. -/
theorem matched_route_wrong_method_405 (reposPath : List Char) (req : Request)
    (op : GitOp) (rp : List Char) (proc : ProcSpec)
    (hroute : routeOf req.path = some (op, rp))
    (hmethod : req.method ≠ requiredMethod op) :
    GitDHTTPHandler reposPath req proc
      = [RespEvent.status 405, RespEvent.write "Method Not Allowed".data] := by
  cases op with
  | upload =>
    simp only [requiredMethod] at hmethod
    rw [dispatch_upload reposPath req rp proc hroute]
    unfold UploadPack
    rw [if_pos hmethod]
  | receive =>
    simp only [requiredMethod] at hmethod
    rw [dispatch_receive reposPath req rp proc hroute]
    unfold ReceivePack
    rw [if_pos hmethod]
  | infoRefs =>
    simp only [requiredMethod] at hmethod
    rw [dispatch_infoRefs reposPath req rp proc hroute]
    unfold InfoRefs
    rw [if_pos hmethod]

/-- C5, witnessed by a GET against the upload path. -/
theorem matched_route_wrong_method_405_witness :
    GitDHTTPHandler "/repos".data sampleWrongMethodReq sampleProcOk
      = [RespEvent.status 405, RespEvent.write "Method Not Allowed".data] :=
  matched_route_wrong_method_405 "/repos".data sampleWrongMethodReq GitOp.upload
    "/test.git".data sampleProcOk (by decide) (by decide)

/-- C3: once routing, method validation and (for ref discovery) the
service check pass, the response trace is the operation's content-type
header, then the committed 200 status, then body writes only; the
committed header and status do not depend on how the subprocess
behaves (`proc` against `proc2`), so no spawn failure, pipe failure or
nonzero exit can change them — `runCommand` only logs such failures. -/
theorem status_committed_before_body (reposPath : List Char) (req : Request)
    (op : GitOp) (rp : List Char) (proc proc2 : ProcSpec)
    (hroute : routeOf req.path = some (op, rp))
    (hmethod : req.method = requiredMethod op)
    (hservice : op = GitOp.infoRefs → validService req.queryService) :
    ∃ ct rest rest2,
      GitDHTTPHandler reposPath req proc
        = RespEvent.header "Content-Type".data ct :: RespEvent.status 200 :: rest
      ∧ GitDHTTPHandler reposPath req proc2
        = RespEvent.header "Content-Type".data ct :: RespEvent.status 200 :: rest2
      ∧ (∀ e ∈ rest, ∃ d, e = RespEvent.write d)
      ∧ (∀ e ∈ rest2, ∃ d, e = RespEvent.write d) := by
  cases op with
  | upload =>
    simp only [requiredMethod] at hmethod
    rw [dispatch_upload reposPath req rp proc hroute,
      dispatch_upload reposPath req rp proc2 hroute]
    unfold UploadPack
    rw [if_neg (fun hne => hne hmethod), if_neg (fun hne => hne hmethod)]
    refine ⟨"application/x-git-upload-pack-result".data,
      [RespEvent.write proc.output], [RespEvent.write proc2.output],
      rfl, rfl, ?_, ?_⟩
    · intro e he
      rw [List.mem_singleton] at he
      exact ⟨proc.output, he⟩
    · intro e he
      rw [List.mem_singleton] at he
      exact ⟨proc2.output, he⟩
  | receive =>
    simp only [requiredMethod] at hmethod
    rw [dispatch_receive reposPath req rp proc hroute,
      dispatch_receive reposPath req rp proc2 hroute]
    unfold ReceivePack
    rw [if_neg (fun hne => hne hmethod), if_neg (fun hne => hne hmethod)]
    refine ⟨"application/x-git-receive-pack-result".data,
      [RespEvent.write proc.output], [RespEvent.write proc2.output],
      rfl, rfl, ?_, ?_⟩
    · intro e he
      rw [List.mem_singleton] at he
      exact ⟨proc.output, he⟩
    · intro e he
      rw [List.mem_singleton] at he
      exact ⟨proc2.output, he⟩
  | infoRefs =>
    simp only [requiredMethod] at hmethod
    rw [dispatch_infoRefs reposPath req rp proc hroute,
      dispatch_infoRefs reposPath req rp proc2 hroute]
    have hcond : ¬(req.queryService ≠ "git-receive-pack".data
        ∧ req.queryService ≠ "git-upload-pack".data) := by
      rcases hservice rfl with h | h <;> simp [h]
    have hm : ¬(req.method ≠ "GET".data) := fun hne => hne hmethod
    unfold InfoRefs
    rw [if_neg hm]
    rw [if_neg hcond]
    rw [if_neg hm]
    rw [if_neg hcond]
    refine ⟨"application/x-".data ++ req.queryService ++ "-advertisement".data,
      [RespEvent.write (packetWrite ("# service=".data ++ req.queryService ++ ['\n'])),
       RespEvent.write packetFlush, RespEvent.write proc.output],
      [RespEvent.write (packetWrite ("# service=".data ++ req.queryService ++ ['\n'])),
       RespEvent.write packetFlush, RespEvent.write proc2.output],
      rfl, rfl, ?_, ?_⟩
    · intro e he
      simp only [List.mem_cons, List.not_mem_nil, or_false] at he
      rcases he with h | h | h <;> exact ⟨_, h⟩
    · intro e he
      simp only [List.mem_cons, List.not_mem_nil, or_false] at he
      rcases he with h | h | h <;> exact ⟨_, h⟩

/-- C3, witnessed by a POST upload request against a well-behaved and
a completely failing subprocess. -/
theorem status_committed_before_body_witness :
    ∃ ct rest rest2,
      GitDHTTPHandler "/repos".data sampleUploadReq sampleProcOk
        = RespEvent.header "Content-Type".data ct :: RespEvent.status 200 :: rest
      ∧ GitDHTTPHandler "/repos".data sampleUploadReq sampleProcBad
        = RespEvent.header "Content-Type".data ct :: RespEvent.status 200 :: rest2
      ∧ (∀ e ∈ rest, ∃ d, e = RespEvent.write d)
      ∧ (∀ e ∈ rest2, ∃ d, e = RespEvent.write d) :=
  status_committed_before_body "/repos".data sampleUploadReq GitOp.upload
    "/test.git".data sampleProcOk sampleProcBad (by decide) (by decide) (by decide)

/-- C4: on a GET ref-discovery request the handler answers 400 with
`Bad Request` exactly when the `service` query value is not one of the
two operation names (the absent parameter reads as the empty string);
otherwise it adds the advertisement content type, commits 200, and
writes the `# service=<name>\n` packet frame and the `0000` flush
frame before the subprocess output. -/
theorem infoRefs_service_gate (reposPath : List Char) (req : Request)
    (rp : List Char) (proc : ProcSpec)
    (hroute : routeOf req.path = some (GitOp.infoRefs, rp))
    (hmethod : req.method = "GET".data) :
    (¬validService req.queryService →
      GitDHTTPHandler reposPath req proc
        = [RespEvent.status 400, RespEvent.write "Bad Request".data])
    ∧ (validService req.queryService →
      GitDHTTPHandler reposPath req proc
        = RespEvent.header "Content-Type".data
            ("application/x-".data ++ req.queryService ++ "-advertisement".data) ::
          RespEvent.status 200 ::
          RespEvent.write (packetWrite ("# service=".data ++ req.queryService ++ ['\n'])) ::
          RespEvent.write packetFlush ::
          [RespEvent.write proc.output]) := by
  constructor
  · intro hbad
    have hcond : req.queryService ≠ "git-receive-pack".data
        ∧ req.queryService ≠ "git-upload-pack".data := by
      unfold validService at hbad
      exact ⟨fun h => hbad (Or.inl h), fun h => hbad (Or.inr h)⟩
    have hm : ¬(req.method ≠ "GET".data) := fun hne => hne hmethod
    rw [dispatch_infoRefs reposPath req rp proc hroute]
    unfold InfoRefs
    rw [if_neg hm]
    rw [if_pos hcond]
  · intro hsvc
    have hcond : ¬(req.queryService ≠ "git-receive-pack".data
        ∧ req.queryService ≠ "git-upload-pack".data) := by
      rcases hsvc with h | h <;> simp [h]
    have hm : ¬(req.method ≠ "GET".data) := fun hne => hne hmethod
    rw [dispatch_infoRefs reposPath req rp proc hroute]
    unfold InfoRefs
    rw [if_neg hm]
    rw [if_neg hcond]
    rfl

/-- C4, witnessed by a valid `git-upload-pack` ref-discovery request;
both conjuncts of the gate are instantiated there. -/
theorem infoRefs_service_gate_witness :
    (¬validService sampleInfoRefsReq.queryService →
      GitDHTTPHandler "/repos".data sampleInfoRefsReq sampleProcOk
        = [RespEvent.status 400, RespEvent.write "Bad Request".data])
    ∧ (validService sampleInfoRefsReq.queryService →
      GitDHTTPHandler "/repos".data sampleInfoRefsReq sampleProcOk
        = RespEvent.header "Content-Type".data
            ("application/x-".data ++ sampleInfoRefsReq.queryService
              ++ "-advertisement".data) ::
          RespEvent.status 200 ::
          RespEvent.write
            (packetWrite ("# service=".data ++ sampleInfoRefsReq.queryService ++ ['\n'])) ::
          RespEvent.write packetFlush ::
          [RespEvent.write sampleProcOk.output]) :=
  infoRefs_service_gate "/repos".data sampleInfoRefsReq "/test.git".data
    sampleProcOk (by decide) (by decide)

/-- C6 (spec-modelled): a request body sent with a recognized gzip
content encoding reaches the subprocess decompressed; when the
decompressing stream cannot be constructed the raw body is used
instead, and either way the bridge still feeds the subprocess and
still relays its output — the operation proceeds. -/
theorem gzip_body_decoded (ce : List Char) (gz : GzipAttempt)
    (raw cwd command : List Char) (args : List (List Char)) (proc : ProcSpec)
    (hce : isGzipEncoding ce) :
    (gz.fails = false → decodeBody ce gz raw = gz.decompressed)
    ∧ (gz.fails = true → decodeBody ce gz raw = raw)
    ∧ (runCommand cwd command args proc (decodeBody ce gz raw)).stdinFed
        = decodeBody ce gz raw
    ∧ (runCommand cwd command args proc (decodeBody ce gz raw)).resp
        = [RespEvent.write proc.output] := by
  refine ⟨?_, ?_, rfl, rfl⟩ <;> intro h <;> simp [decodeBody, hce, h]

theorem splitSegs_ne_nil (l : List Char) : splitSegs l ≠ [] := by
  cases l with
  | nil => simp [splitSegs]
  | cons c cs =>
    by_cases hc : c = '/'
    · simp [splitSegs, hc]
    · simp only [splitSegs, if_neg hc]
      cases splitSegs cs <;> simp

theorem mem_splitSegs_no_slash (l : List Char) :
    ∀ s ∈ splitSegs l, '/' ∉ s := by
  induction l with
  | nil =>
    intro s hs
    simp [splitSegs] at hs
    simp [hs]
  | cons c cs ih =>
    intro s hs
    by_cases hc : c = '/'
    · rw [splitSegs, if_pos hc] at hs
      rcases List.mem_cons.mp hs with h | h
      · simp [h]
      · exact ih s h
    · rw [splitSegs, if_neg hc] at hs
      rcases hsp : splitSegs cs with _ | ⟨s0, ss⟩
      · exact absurd hsp (splitSegs_ne_nil cs)
      · rw [hsp] at hs
        rcases List.mem_cons.mp hs with h | h
        · subst h
          intro hmem
          rcases List.mem_cons.mp hmem with h | h
          · exact hc h.symm
          · exact ih s0 (hsp ▸ List.mem_cons_self s0 ss) h
        · exact ih s (hsp ▸ List.mem_cons_of_mem s0 h)

theorem splitSegs_no_slash_self (s : List Char) (h : '/' ∉ s) :
    splitSegs s = [s] := by
  induction s with
  | nil => rfl
  | cons c cs ih =>
    have hc : c ≠ '/' := fun hx => h (hx ▸ List.mem_cons_self c cs)
    have hcs : '/' ∉ cs := fun hx => h (List.mem_cons_of_mem c hx)
    rw [splitSegs, if_neg hc, ih hcs]

theorem splitSegs_append_slash (s r : List Char) (h : '/' ∉ s) :
    splitSegs (s ++ '/' :: r) = s :: splitSegs r := by
  induction s with
  | nil => simp [splitSegs]
  | cons c cs ih =>
    have hc : c ≠ '/' := fun hx => h (hx ▸ List.mem_cons_self c cs)
    have hcs : '/' ∉ cs := fun hx => h (List.mem_cons_of_mem c hx)
    rw [List.cons_append, splitSegs, if_neg hc, ih hcs]

theorem joinSegs_cons (s : List Char) (ss : List (List Char)) :
    joinSegs (s :: ss) = s ++ (if ss = [] then [] else '/' :: joinSegs ss) := by
  cases ss with
  | nil => simp [joinSegs]
  | cons t ts => simp [joinSegs]

theorem splitSegs_joinSegs (ns : List (List Char)) (hne : ns ≠ [])
    (h : ∀ x ∈ ns, '/' ∉ x) : splitSegs (joinSegs ns) = ns := by
  induction ns with
  | nil => exact absurd rfl hne
  | cons s ss ih =>
    cases ss with
    | nil =>
      rw [joinSegs]
      exact splitSegs_no_slash_self s (h s (List.mem_cons_self s []))
    | cons t ts =>
      rw [joinSegs_cons, if_neg (by simp)]
      rw [splitSegs_append_slash s _ (h s (List.mem_cons_self s _))]
      rw [ih (by simp) (fun x hx => h x (List.mem_cons_of_mem s hx))]

/-- `cleanStep` on a skipped element. -/
theorem cleanStep_skip (rooted : Bool) (acc : List (List Char))
    (seg : List Char) (h : seg = [] ∨ seg = ['.']) :
    cleanStep rooted acc seg = acc := by
  rw [cleanStep.eq_def, if_pos h]

/-- `cleanStep` on a `..` element against an empty buffer. -/
theorem cleanStep_dd_nil (rooted : Bool) :
    cleanStep rooted [] dd = if rooted then [] else [dd] := by
  rw [cleanStep.eq_def, if_neg (by decide), if_pos rfl]

/-- `cleanStep` on a `..` element against a non-empty buffer. -/
theorem cleanStep_dd_cons (rooted : Bool) (top : List Char)
    (rest : List (List Char)) :
    cleanStep rooted (top :: rest) dd
      = if top = dd then dd :: (top :: rest) else rest := by
  rw [cleanStep.eq_def, if_neg (by decide), if_pos rfl]

/-- `cleanStep` on a normal element. -/
theorem cleanStep_push (rooted : Bool) (acc : List (List Char))
    (seg : List Char) (h1 : ¬(seg = [] ∨ seg = ['.'])) (h2 : seg ≠ dd) :
    cleanStep rooted acc seg = seg :: acc := by
  rw [cleanStep.eq_def, if_neg h1, if_neg h2]

/-- One `cleanStep` preserves the canonical stack shape: normal
elements on top of a block of `..` elements, the block empty for a
rooted path. -/
theorem cleanStep_inv (rooted : Bool) (ns : List (List Char)) (k : Nat)
    (seg : List Char) (hns : ∀ x ∈ ns, NormalSeg x)
    (hroot : rooted = true → k = 0) (hseg : '/' ∉ seg) :
    ∃ ns2 k2,
      cleanStep rooted (ns ++ List.replicate k dd) seg
        = ns2 ++ List.replicate k2 dd
      ∧ (∀ x ∈ ns2, NormalSeg x) ∧ (rooted = true → k2 = 0) := by
  by_cases h1 : seg = [] ∨ seg = ['.']
  · exact ⟨ns, k, cleanStep_skip rooted _ seg h1, hns, hroot⟩
  · by_cases h2 : seg = dd
    · subst h2
      cases ns with
      | nil =>
        cases k with
        | zero =>
          simp only [List.nil_append, List.replicate_zero]
          rw [cleanStep_dd_nil]
          cases rooted with
          | true => exact ⟨[], 0, by simp, by simp, fun _ => rfl⟩
          | false =>
            exact ⟨[], 1, by simp [List.replicate_succ], by simp, by simp⟩
        | succ k =>
          have hr : rooted = false := by
            cases rooted with
            | true => exact absurd (hroot rfl) (by omega)
            | false => rfl
          refine ⟨[], k + 2, ?_, by simp, by simp [hr]⟩
          simp only [List.nil_append, List.replicate_succ]
          rw [cleanStep_dd_cons, if_pos rfl]
      | cons top ns' =>
        have htop := hns top (List.mem_cons_self top ns')
        refine ⟨ns', k, ?_, fun x hx => hns x (List.mem_cons_of_mem top hx),
          hroot⟩
        rw [List.cons_append, cleanStep_dd_cons, if_neg htop.2.2.1]
    · refine ⟨seg :: ns, k, cleanStep_push rooted _ seg h1 h2, ?_, hroot⟩
      intro x hx
      rcases List.mem_cons.mp hx with h | h
      · subst h
        push_neg at h1
        exact ⟨h1.1, h1.2, h2, hseg⟩
      · exact hns x h

/-- The whole element loop preserves the canonical stack shape. -/
theorem foldl_cleanStep_inv (rooted : Bool) (segs : List (List Char))
    (hsegs : ∀ s ∈ segs, '/' ∉ s) :
    ∀ ns k, (∀ x ∈ ns, NormalSeg x) → (rooted = true → k = 0) →
    ∃ ns2 k2,
      List.foldl (cleanStep rooted) (ns ++ List.replicate k dd) segs
        = ns2 ++ List.replicate k2 dd
      ∧ (∀ x ∈ ns2, NormalSeg x) ∧ (rooted = true → k2 = 0) := by
  induction segs with
  | nil => intro ns k hns hroot; exact ⟨ns, k, rfl, hns, hroot⟩
  | cons seg segs ih =>
    intro ns k hns hroot
    obtain ⟨ns1, k1, hstep, hns1, hroot1⟩ :=
      cleanStep_inv rooted ns k seg hns hroot
        (hsegs seg (List.mem_cons_self seg segs))
    rw [List.foldl_cons, hstep]
    exact ih (fun s hs => hsegs s (List.mem_cons_of_mem seg hs)) ns1 k1 hns1 hroot1

/-- Over normal elements the loop is a pure push. -/
theorem foldl_cleanStep_push (rooted : Bool) (segs : List (List Char))
    (hsegs : ∀ s ∈ segs, NormalSeg s) :
    ∀ acc, List.foldl (cleanStep rooted) acc segs = segs.reverse ++ acc := by
  induction segs with
  | nil => intro acc; rfl
  | cons seg segs ih =>
    intro acc
    have hseg := hsegs seg (List.mem_cons_self seg segs)
    rw [List.foldl_cons,
      cleanStep_push rooted acc seg (by push_neg; exact ⟨hseg.1, hseg.2.1⟩)
        hseg.2.2.1,
      ih (fun s hs => hsegs s (List.mem_cons_of_mem seg hs))]
    simp

/-- Everything `clean` returns is canonical: a rooted path over normal
elements, the dot path, or leading `..` elements followed by normal
elements. -/
theorem clean_shape (x : List Char) :
    (∃ ns, (∀ s ∈ ns, NormalSeg s) ∧ clean x = '/' :: joinSegs ns)
    ∨ clean x = ['.']
    ∨ (∃ k ns, (∀ s ∈ ns, NormalSeg s) ∧ k + ns.length ≠ 0
        ∧ clean x = joinSegs (List.replicate k dd ++ ns)) := by
  cases x with
  | nil => exact Or.inr (Or.inl rfl)
  | cons c cs =>
    have hsegs := mem_splitSegs_no_slash (c :: cs)
    by_cases hc : c = '/'
    · have hcd : (decide (c = '/')) = true := by simp [hc]
      obtain ⟨ns2, k2, hfold, hns2, hroot2⟩ :=
        foldl_cleanStep_inv true (splitSegs (c :: cs)) hsegs [] 0
          (by simp) (fun _ => rfl)
      rw [hroot2 rfl] at hfold
      simp only [List.replicate_zero, List.append_nil, List.nil_append] at hfold
      left
      refine ⟨ns2.reverse, fun s hs => hns2 s (List.mem_reverse.mp hs), ?_⟩
      show clean (c :: cs) = _
      simp only [clean]
      rw [hcd, if_pos rfl, hfold]
    · have hcd : (decide (c = '/')) = false := by simp [hc]
      obtain ⟨ns2, k2, hfold, hns2, _⟩ :=
        foldl_cleanStep_inv false (splitSegs (c :: cs)) hsegs [] 0
          (by simp) (by simp)
      simp only [List.replicate_zero, List.append_nil, List.nil_append] at hfold
      have hrev : (List.foldl (cleanStep false) [] (splitSegs (c :: cs))).reverse
          = List.replicate k2 dd ++ ns2.reverse := by
        rw [hfold, List.reverse_append, List.reverse_replicate]
      by_cases hnil : List.replicate k2 dd ++ ns2.reverse = []
      · right; left
        have hcond : (List.foldl (cleanStep false)
            [] (splitSegs (c :: cs))).reverse = [] := by
          rw [hrev]; exact hnil
        show clean (c :: cs) = ['.']
        simp only [clean]
        rw [hcd, if_neg (by simp), if_pos hcond]
      · right; right
        refine ⟨k2, ns2.reverse,
          fun s hs => hns2 s (List.mem_reverse.mp hs), ?_, ?_⟩
        · intro h0
          apply hnil
          have hk : k2 = 0 := by omega
          have hn : ns2.reverse = [] :=
            List.eq_nil_of_length_eq_zero (by omega)
          rw [hk, hn, List.replicate_zero]
          rfl
        · have hcond : ¬(List.foldl (cleanStep false)
              [] (splitSegs (c :: cs))).reverse = [] := by
            rw [hrev]; exact hnil
          show clean (c :: cs) = _
          simp only [clean]
          rw [hcd, if_neg (by simp), if_neg hcond, hrev]

/-- A path headed by a normal element never starts with the token
`../`. -/
theorem joinSegs_take3_ne (s : List Char) (ss : List (List Char))
    (h : NormalSeg s) :
    ((joinSegs (s :: ss)).take 3 == ['.', '.', '/']) = false := by
  rw [beq_eq_false_iff_ne]
  obtain ⟨h1, h2, h3, h4⟩ := h
  intro hx
  by_cases hss : ss = []
  · subst hss
    rw [show joinSegs [s] = s from rfl] at hx
    rcases s with _ | ⟨a, _ | ⟨b, _ | ⟨c3, r⟩⟩⟩
    · simp at hx
    · simp at hx
    · simp at hx
    · rw [show List.take 3 (a :: b :: c3 :: r) = [a, b, c3] from rfl] at hx
      injection hx with hA hx
      injection hx with hB hx
      injection hx with hC _
      exact h4 (hC ▸ List.mem_cons_of_mem a
        (List.mem_cons_of_mem b (List.mem_cons_self c3 r)))
  · rw [joinSegs_cons, if_neg hss] at hx
    rcases s with _ | ⟨a, _ | ⟨b, _ | ⟨c3, r⟩⟩⟩
    · exact h1 rfl
    · rw [show List.take 3 ([a] ++ '/' :: joinSegs ss)
          = a :: '/' :: (joinSegs ss).take 1 from rfl] at hx
      injection hx with hA hx
      injection hx with hB _
      exact absurd hB (by decide)
    · rw [show List.take 3 ([a, b] ++ '/' :: joinSegs ss)
          = [a, b, '/'] from rfl] at hx
      injection hx with hA hx
      injection hx with hB _
      exact h3 (by rw [hA, hB]; rfl)
    · rw [show List.take 3 ((a :: b :: c3 :: r) ++ '/' :: joinSegs ss)
          = [a, b, c3] from rfl] at hx
      injection hx with hA hx
      injection hx with hB hx
      injection hx with hC _
      exact h4 (hC ▸ List.mem_cons_of_mem a
        (List.mem_cons_of_mem b (List.mem_cons_self c3 _)))

/-- Stripping leaves a path of normal elements alone. -/
theorem stripDotDot_joinSegs_normal (ns : List (List Char))
    (h : ∀ x ∈ ns, NormalSeg x) :
    stripDotDot (joinSegs ns) = joinSegs ns := by
  cases ns with
  | nil => rfl
  | cons s ss =>
    exact stripDotDot_of_take3_ne _
      (joinSegs_take3_ne s ss (h s (List.mem_cons_self s ss)))

/-- Stripping a canonical relative path removes exactly its leading
`..` elements; only a final bare `..` survives. -/
theorem stripDotDot_join_dds (k : Nat) (ns : List (List Char))
    (hns : ∀ x ∈ ns, NormalSeg x) :
    stripDotDot (joinSegs (List.replicate k dd ++ ns))
      = if ns = [] then (if k = 0 then [] else dd) else joinSegs ns := by
  induction k with
  | zero =>
    rw [List.replicate_zero, List.nil_append]
    cases ns with
    | nil => rfl
    | cons s ss =>
      rw [if_neg (by simp)]
      exact stripDotDot_joinSegs_normal _ hns
  | succ k ih =>
    rw [List.replicate_succ, List.cons_append]
    by_cases htail : List.replicate k dd ++ ns = []
    · have h2 := congrArg List.length htail
      rw [List.length_append, List.length_replicate] at h2
      simp only [List.length_nil] at h2
      have hns0 : ns = [] := List.eq_nil_of_length_eq_zero (by omega)
      rw [htail]
      rw [show joinSegs [dd] = dd from rfl]
      rw [show stripDotDot dd = dd from rfl]
      rw [if_pos hns0, if_neg (by omega)]
    · rw [joinSegs_cons, if_neg htail]
      rw [show dd ++ '/' :: joinSegs (List.replicate k dd ++ ns)
          = '.' :: '.' :: '/' :: joinSegs (List.replicate k dd ++ ns) from rfl]
      rw [show stripDotDot
            ('.' :: '.' :: '/' :: joinSegs (List.replicate k dd ++ ns))
          = stripDotDot (joinSegs (List.replicate k dd ++ ns)) from rfl]
      rw [ih]
      by_cases hn : ns = []
      · rw [if_pos hn, if_pos hn]
        have hk : k ≠ 0 := fun h0 =>
          htail (by rw [h0, hn, List.replicate_zero]; rfl)
        rw [if_neg hk, if_neg (by omega)]
      · rw [if_neg hn, if_neg hn]

theorem clean_dot : clean ['.'] = ['.'] := by decide

theorem clean_dd : clean dd = dd := by decide

/-- `clean` keeps a relative path of normal elements. -/
theorem clean_joinSegs_normal (ns : List (List Char)) (hne : ns ≠ [])
    (hns : ∀ x ∈ ns, NormalSeg x) :
    clean (joinSegs ns) = joinSegs ns := by
  rcases ns with _ | ⟨s, ss⟩
  · exact absurd rfl hne
  have hs := hns s (List.mem_cons_self s ss)
  have hx : ∃ a t, joinSegs (s :: ss) = a :: t ∧ a ≠ '/' := by
    rcases s with _ | ⟨a, s1⟩
    · exact absurd rfl hs.1
    · refine ⟨a, s1 ++ (if ss = [] then [] else '/' :: joinSegs ss), ?_, ?_⟩
      · rw [joinSegs_cons, List.cons_append]
      · intro hxa
        exact hs.2.2.2 (hxa ▸ List.mem_cons_self a s1)
  obtain ⟨a, t, hjoin, ha⟩ := hx
  rw [hjoin]
  simp only [clean]
  rw [show (decide (a = '/')) = false from by simp [ha]]
  rw [← hjoin]
  rw [splitSegs_joinSegs (s :: ss) (by simp) (fun x hxm => (hns x hxm).2.2.2)]
  rw [foldl_cleanStep_push false (s :: ss) hns []]
  rw [List.append_nil, List.reverse_reverse]
  rw [if_neg (by simp : ¬false = true), if_neg (by simp : ¬(s :: ss) = [])]

/-- `clean` keeps a rooted path of normal elements. -/
theorem clean_rooted_joinSegs (ns : List (List Char))
    (hns : ∀ x ∈ ns, NormalSeg x) :
    clean ('/' :: joinSegs ns) = '/' :: joinSegs ns := by
  rcases ns with _ | ⟨s, ss⟩
  · decide
  · simp only [clean]
    rw [show (decide True) = true from by decide]
    rw [if_pos rfl]
    rw [splitSegs, if_pos rfl]
    rw [splitSegs_joinSegs (s :: ss) (by simp) (fun x hxm => (hns x hxm).2.2.2)]
    rw [List.foldl_cons, cleanStep_skip true [] [] (Or.inl rfl)]
    rw [foldl_cleanStep_push true (s :: ss) hns []]
    rw [List.append_nil, List.reverse_reverse]

/-- The composite `stripDotDot ∘ clean` lands on fixed points of
`clean`. -/
theorem clean_stripDotDot_clean (x : List Char) :
    clean (stripDotDot (clean x)) = stripDotDot (clean x) := by
  rcases clean_shape x with ⟨ns, hns, hx⟩ | hx | ⟨k, ns, hns, hlen, hx⟩
  · rw [hx]
    rw [stripDotDot_of_take3_ne _ (by
      rw [beq_eq_false_iff_ne]
      intro hy
      rcases ns with _ | ⟨s, ss⟩
      · simp at hy
      · rcases hjs : joinSegs (s :: ss) with _ | ⟨b, t⟩
        · rw [hjs] at hy; simp at hy
        · rw [hjs, show List.take 3 ('/' :: b :: t) = '/' :: b :: t.take 1 from rfl]
            at hy
          injection hy with hA _
          exact absurd hA (by decide))]
    exact clean_rooted_joinSegs ns hns
  · rw [hx]
    rw [show stripDotDot ['.'] = ['.'] from rfl]
    exact clean_dot
  · rw [hx, stripDotDot_join_dds k ns hns]
    by_cases hn : ns = []
    · rw [if_pos hn]
      have hk : k ≠ 0 := by
        intro h0
        rw [hn, h0] at hlen
        simp at hlen
      rw [if_neg hk]
      exact clean_dd
    · rw [if_neg hn]
      exact clean_joinSegs_normal ns hn hns

/-- C10: `sanitize` is idempotent — re-sanitizing an already-sanitized
string changes nothing — so the working directory `runCommand` hands
the subprocess after its own `sanitize` call is exactly the sanitized
directory, even when the caller sanitized it already. -/
theorem sanitize_idempotent (x cwd command : List Char)
    (args : List (List Char)) (proc : ProcSpec) (body : List Char) :
    sanitize (sanitize x) = sanitize x
    ∧ (runCommand (sanitize cwd) command args proc body).dir = sanitize cwd := by
  have hidem : ∀ y : List Char, sanitize (sanitize y) = sanitize y := by
    intro y
    rw [sanitize_eq (sanitize y), sanitize_eq y, clean_stripDotDot_clean y,
      stripDotDot_idem]
  exact ⟨hidem x, hidem cwd⟩

/-- C6, witnessed at the `gzip` encoding with a succeeding
decompressor; the failing-decompressor conjunct is instantiated in the
same statement. -/
theorem gzip_body_decoded_witness :
    (sampleGz.fails = false →
      decodeBody "gzip".data sampleGz "raw".data = sampleGz.decompressed)
    ∧ (sampleGz.fails = true →
      decodeBody "gzip".data sampleGz "raw".data = "raw".data)
    ∧ (runCommand "/repos/r".data "git-upload-pack".data [] sampleProcOk
        (decodeBody "gzip".data sampleGz "raw".data)).stdinFed
        = decodeBody "gzip".data sampleGz "raw".data
    ∧ (runCommand "/repos/r".data "git-upload-pack".data [] sampleProcOk
        (decodeBody "gzip".data sampleGz "raw".data)).resp
        = [RespEvent.write sampleProcOk.output] :=
  gzip_body_decoded "gzip".data sampleGz "raw".data "/repos/r".data
    "git-upload-pack".data [] sampleProcOk (by decide)

end Gitd
